import Mathlib

/-!
Verification of the declarative infrastructure-provisioning core described by
the repository `ecs-deploy-sample`.

The repository's `src/lib/ecs-deploy-sample-stack.ts` declares the concrete
resource graph (VPC, security groups, RDS instance with generated credentials,
ALB, target group, ECS cluster / task definition / service) and
`src/unnamed/part_000` is the Rails health-check controller.  The generic
engine (DependencyGraph, Synthesizer, SecretStore, NetworkTopology,
ServiceBinder) is not shipped under `src/`; those components are modelled from
the spec, while every concrete constant (ports, security rules, credential
wiring, environment variables) is transcribed from the stack source.
-/

set_option autoImplicit false

namespace EcsDeploy

/-- Attribute: a configuration value, either a literal or a reference deferred
until its source resource is synthesized (spec §3; in the stack source these
are the CDK token references such as `postgresql.instanceEndpoint.hostname`). -/
inductive Attr where
  | lit (value : String)
  | deferred (sourceResourceId : String) (fieldName : String)
deriving DecidableEq, Repr

/-- Resource: `{id, kind, config, dependsOn}` (spec §3). -/
structure Resource where
  id : String
  kind : String
  config : List (String × Attr)
  dependsOn : List String
deriving DecidableEq, Repr

/-- The sources of every Deferred Attribute appearing in a resource's config:
each induces an implicit dependency edge (spec §4.1). -/
def Resource.deferredSources (r : Resource) : List String :=
  r.config.filterMap fun p =>
    match p.2 with
    | Attr.lit _ => none
    | Attr.deferred src _ => some src

/-- All dependencies of a resource: explicit `dependsOn` declarations plus the
implicit edges induced by Deferred Attributes in its config (spec §4.1). -/
def Resource.allDeps (r : Resource) : List String :=
  r.dependsOn ++ r.deferredSources

/-- Graph-construction errors (spec §7). -/
inductive GraphError where
  | duplicateId (id : String)
  | unknownResource (id : String)
  | cycleDetected (members : List String)
deriving DecidableEq, Repr

/-- Modelled from the spec: `DependencyGraph.addResource`, failing with
`DuplicateIdError` when the id is already present (spec §4.1). -/
def addResource (g : List Resource) (r : Resource) : Except GraphError (List Resource) :=
  if g.any (fun x => x.id == r.id) then Except.error (GraphError.duplicateId r.id)
  else Except.ok (g ++ [r])

/-- A resource is ready once all of its dependencies are already emitted. -/
def readyIn (done : List Resource) (r : Resource) : Bool :=
  r.allDeps.all fun d => done.any (fun x => x.id == d)

/-- Pick the first (declaration-order) ready resource among the pending ones:
the stable tie-break of spec §4.1. -/
def pickReady (done : List Resource) : List Resource → Option (Resource × List Resource)
  | [] => none
  | r :: rest =>
    if readyIn done r then some (r, rest)
    else
      match pickReady done rest with
      | some (x, rest2) => some (x, r :: rest2)
      | none => none

/-- Modelled from the spec: the Kahn-style walk behind `topologicalOrder()`
(spec §4.1) — repeatedly emit the first declaration-order resource whose
dependencies are all emitted; when none is ready the remaining resources are
reported through `CycleDetectedError`. -/
def topoAux : Nat → List Resource → List Resource → Except GraphError (List Resource)
  | _, [], acc => Except.ok acc
  | 0, r :: rest, _ => Except.error (GraphError.cycleDetected ((r :: rest).map Resource.id))
  | Nat.succ fuel, r :: rest, acc =>
    match pickReady acc (r :: rest) with
    | none => Except.error (GraphError.cycleDetected ((r :: rest).map Resource.id))
    | some (x, rest2) => topoAux fuel rest2 (acc ++ [x])

/-- The resources of a graph in synthesis order. -/
def orderedResources (g : List Resource) : Except GraphError (List Resource) :=
  topoAux g.length g []

/-- Modelled from the spec: `DependencyGraph.topologicalOrder()` (spec §4.1),
returning the ordered sequence of Resource ids. -/
def topologicalOrder (g : List Resource) : Except GraphError (List String) :=
  (orderedResources g).map fun l => l.map Resource.id

/-- An edge of the dependency relation: resource `a` depends on `b`. -/
def edgeTo (g : List Resource) (a b : String) : Prop :=
  ∃ r, r ∈ g ∧ r.id = a ∧ b ∈ r.allDeps

/-- A cycle in the dependency graph: a nonempty id sequence in which every
member depends on its cyclic successor. -/
def isCycle (g : List Resource) (c : List String) : Prop :=
  ∃ h : 0 < c.length,
    ∀ i : Fin c.length,
      edgeTo g (c.get i) (c.get ⟨(i.val + 1) % c.length, Nat.mod_lt _ h⟩)

/-- The scenario graph of the spec (§8): the nine resources of the stack
source, ids as in the spec scenario, dependencies transcribed from
`ecs-deploy-sample-stack.ts` in declaration order.  The task definition's
container environment consumes Deferred Attributes of the database
(`postgresql.instanceEndpoint.hostname` / `.port`), and `service` depends on
`{cluster, taskdef, tg, sg-app}` (source lines 183–188). -/
def scenarioGraph : List Resource :=
  [ { id := "vpc", kind := "vpc", config := [], dependsOn := [] },
    { id := "sg-elb", kind := "security-group", config := [], dependsOn := ["vpc"] },
    { id := "sg-app", kind := "security-group", config := [], dependsOn := ["vpc", "sg-elb"] },
    { id := "db", kind := "database", config := [], dependsOn := ["vpc"] },
    { id := "alb", kind := "load-balancer", config := [], dependsOn := ["vpc", "sg-elb"] },
    { id := "tg", kind := "target-group", config := [], dependsOn := ["vpc"] },
    { id := "cluster", kind := "cluster", config := [], dependsOn := ["vpc"] },
    { id := "taskdef", kind := "task-definition",
      config := [ ("DB_HOST", Attr.deferred "db" "hostname"),
                  ("DB_PORT", Attr.deferred "db" "port") ],
      dependsOn := [] },
    { id := "service", kind := "service", config := [],
      dependsOn := ["cluster", "taskdef", "tg", "sg-app"] } ]

/-! ### Synthesizer (spec §4.2, §5, §7) -/

/-- ProviderError classification: transient errors are retried, permanent ones
are immediately fatal (spec §7). -/
inductive ProvErr where
  | transient
  | permanent
deriving DecidableEq, Repr

/-- A provider stub: `create(kind, resolvedConfig)` returning an outputs map
(spec §6); the extra `Nat` argument is the 0-based attempt index, making a
stub's per-attempt behaviour (e.g. "fails twice then succeeds") explicit. -/
def ProviderFun : Type :=
  String → List (String × String) → Nat → Except ProvErr (List (String × String))

/-- Synthesis-time errors (spec §4.2 and §7): every fatal error carries the
offending resource id and the partial list of already-synthesized ids. -/
inductive SynthError where
  | graphError (e : GraphError)
  | unresolvedDependency (id : String) (created : List String)
  | providerFailed (id : String) (e : ProvErr) (created : List String)
deriving DecidableEq, Repr

/-- Look up the recorded outputs of a resource id. -/
def lookupOutputs (outs : List (String × List (String × String))) (rid : String) :
    Option (List (String × String)) :=
  (outs.find? fun p => p.1 == rid).map Prod.snd

/-- Modelled from the spec: resolve one config Attribute against the
already-recorded outputs of its source (spec §4.2(a)); `none` signals an
unresolved dependency. -/
def resolveAttr (outs : List (String × List (String × String))) : Attr → Option String
  | Attr.lit v => some v
  | Attr.deferred src fieldName =>
    match lookupOutputs outs src with
    | none => none
    | some o => (o.find? fun p => p.1 == fieldName).map Prod.snd

/-- Resolve a full resource config, failing on the first unresolvable entry. -/
def resolveConfig (outs : List (String × List (String × String))) :
    List (String × Attr) → Option (List (String × String))
  | [] => some []
  | (k, a) :: rest =>
    match resolveAttr outs a with
    | none => none
    | some v =>
      match resolveConfig outs rest with
      | none => none
      | some tail => some ((k, v) :: tail)

/-- The fixed retry budget for transient provider errors (spec §7: bounded
retry, fixed attempts). -/
def retryBudget : Nat := 3

/-- Modelled from the spec: one create step with bounded retry for transient
errors only (spec §7).  `k` is the remaining budget and `n` the number of
attempts already made; returns the outputs together with the total attempt
count, or the final error with the attempt count. -/
def attemptCreate (create : ProviderFun) (kind : String)
    (cfg : List (String × String)) : Nat → Nat → Except (ProvErr × Nat) (List (String × String) × Nat)
  | 0, n => Except.error (ProvErr.transient, n)
  | Nat.succ k, n =>
    match create kind cfg n with
    | Except.ok outs => Except.ok (outs, n + 1)
    | Except.error ProvErr.permanent => Except.error (ProvErr.permanent, n + 1)
    | Except.error ProvErr.transient =>
      if k = 0 then Except.error (ProvErr.transient, n + 1)
      else attemptCreate create kind cfg k (n + 1)

/-- The result of a synthesis run: the resolved-output map, the per-resource
create-attempt counts, and the ids created in order. -/
structure SynthResult where
  outputs : List (String × List (String × String))
  attempts : List (String × Nat)
  created : List String
deriving DecidableEq, Repr

/-- Modelled from the spec: the synthesis walk (spec §4.2) — for each resource
in order, resolve its config, invoke the provider (with bounded retry for
transient errors), and record its outputs; a fatal error halts the walk and
reports the already-created ids. -/
def synthAux (create : ProviderFun) :
    List Resource → List (String × List (String × String)) → List (String × Nat) →
    List String → Except SynthError SynthResult
  | [], outs, atts, created => Except.ok { outputs := outs, attempts := atts, created := created }
  | r :: rest, outs, atts, created =>
    match resolveConfig outs r.config with
    | none => Except.error (SynthError.unresolvedDependency r.id created)
    | some cfg =>
      match attemptCreate create r.kind cfg retryBudget 0 with
      | Except.error (e, _) => Except.error (SynthError.providerFailed r.id e created)
      | Except.ok (o, n) =>
        synthAux create rest (outs ++ [(r.id, o)]) (atts ++ [(r.id, n)]) (created ++ [r.id])

/-- Modelled from the spec: `synthesize(graph)` (spec §4.2) — graph-construction
errors are fatal before any provider call; otherwise the resources are
processed strictly in topological order. -/
def synthesize (create : ProviderFun) (g : List Resource) : Except SynthError SynthResult :=
  match orderedResources g with
  | Except.error e => Except.error (SynthError.graphError e)
  | Except.ok rs => synthAux create rs [] [] []

/-! ### SecretStore (spec §4.4; constants from source lines 71–81) -/

/-- The character-class policy of `generateSecretString` in the stack source:
`excludePunctuation: true, includeSpace: false`. -/
structure GenPolicy where
  excludePunctuation : Bool
  includeSpace : Bool
deriving DecidableEq, Repr

/-- The policy requested by `databaseCredentialSecret` (source lines 73–75). -/
def dbPolicy : GenPolicy :=
  { excludePunctuation := true, includeSpace := false }

def isAlphanum (c : Char) : Bool :=
  c.isAlpha || c.isDigit

/-- Printable-ASCII punctuation: printable, not alphanumeric, not the space. -/
def isPunct (c : Char) : Bool :=
  decide (33 ≤ c.toNat) && decide (c.toNat ≤ 126) && !isAlphanum c

/-- The printable ASCII alphabet (codes 32–126) passwords are drawn from. -/
def baseChars : List Char :=
  (List.range 95).map fun n => Char.ofNat (32 + n)

/-- The alphabet permitted by a policy: punctuation is dropped when
`excludePunctuation` is set, the space when `includeSpace` is not. -/
def allowedChars (p : GenPolicy) : List Char :=
  baseChars.filter fun c =>
    (!(p.excludePunctuation && isPunct c)) && (p.includeSpace || !(c == ' '))

/-- Modelled from the spec: password generation under a character-class policy
(spec §4.4); each seed picks one character of the permitted alphabet. -/
def genPassword (p : GenPolicy) (seeds : List Nat) : List Char :=
  seeds.map fun n => (allowedChars p).getD (n % (allowedChars p).length) 'a'

/-- Credential: `{username: Literal, password: Deferred}` (spec §3). -/
structure Credential where
  username : Attr
  password : Attr
deriving DecidableEq, Repr

/-- The secret store: generated secret strings keyed by secret name. -/
structure SecretStore where
  secrets : List (String × List Char)
deriving DecidableEq, Repr

/-- Look up a stored generated password. -/
def SecretStore.lookupPassword (st : SecretStore) (name : String) : Option (List Char) :=
  (st.secrets.find? fun q => q.1 == name).map Prod.snd

/-- Modelled from the spec: `SecretStore.generate` (spec §4.4) — the password
is generated once and stored; the returned Credential holds the template
username as a Literal and the password as a Deferred Attribute resolved by
reference (never regenerated on subsequent reads). -/
def SecretStore.generate (st : SecretStore) (name : String) (username : String)
    (p : GenPolicy) (seeds : List Nat) : SecretStore × Credential :=
  match st.secrets.find? (fun q => q.1 == name) with
  | some _ =>
    (st, { username := Attr.lit username, password := Attr.deferred name "password" })
  | none =>
    ({ secrets := st.secrets ++ [(name, genPassword p seeds)] },
     { username := Attr.lit username, password := Attr.deferred name "password" })

/-! ### NetworkTopology (spec §4.3; rules from source lines 47–68) -/

/-- The source of an ingress rule: `ec2.Peer.anyIpv4()` or a security group. -/
inductive RuleSource where
  | anyIpv4
  | group (id : String)
deriving DecidableEq, Repr

/-- SecurityRule: `{fromGroup | fromAnyIpv4, toGroup, port}` (spec §3; ingress
only, protocol is always TCP in the stack source). -/
structure SecurityRule where
  src : RuleSource
  toGroup : String
  port : Nat
deriving DecidableEq, Repr

/-- The three security groups declared by the stack source (lines 47–68),
using the spec scenario's ids. -/
def declaredGroups : List String :=
  ["sg-elb", "sg-app", "sg-rds"]

/-- The app port: the container / target-group port of the stack source
(lines 60, 118, 178). -/
def appPort : Nat := 3000

/-- The three ingress rules of the stack source:
`securityGroupELB.addIngressRule(anyIpv4, 80)` (line 52),
`securityGroupAPP.addIngressRule(securityGroupELB, 3000)` (line 60),
`securityGroupRDS.addIngressRule(securityGroupAPP, 5432)` (line 68). -/
def ingressRules : List SecurityRule :=
  [ { src := RuleSource.anyIpv4, toGroup := "sg-elb", port := 80 },
    { src := RuleSource.group "sg-elb", toGroup := "sg-app", port := appPort },
    { src := RuleSource.group "sg-app", toGroup := "sg-rds", port := 5432 } ]

inductive TopoError where
  | unknownGroup (id : String)
deriving DecidableEq, Repr

/-- The group ids a rule references: its source group (when not any-IPv4) and
its target group. -/
def ruleRefs (r : SecurityRule) : List String :=
  (match r.src with
   | RuleSource.anyIpv4 => []
   | RuleSource.group g => [g]) ++ [r.toGroup]

/-- Modelled from the spec: `NetworkTopology` construction validates that no
rule references an undeclared group, failing with `UnknownGroupError`
(spec §4.3); otherwise it emits the rule declarations unchanged. -/
def buildTopology (groups : List String) : List SecurityRule → Except TopoError (List SecurityRule)
  | [] => Except.ok []
  | r :: rest =>
    match ((ruleRefs r).filter fun g => !(decide (g ∈ groups))).head? with
    | some g => Except.error (TopoError.unknownGroup g)
    | none => (buildTopology groups rest).map fun l => r :: l

/-! ### ServiceBinder (spec §4.5) -/

inductive BindError where
  | incompatiblePort (containerPort : Nat) (tgPort : Nat)
deriving DecidableEq, Repr

/-- Modelled from the spec: `ServiceBinder.bind(cluster, taskDefinition,
targetGroup, securityGroups)` (spec §4.5) — declares the Service Resource
depending on all four inputs, failing with `IncompatiblePortError` when the
task definition's container port differs from the target group's port. -/
def bind (clusterId taskDefId tgId : String) (containerPort tgPort : Nat)
    (securityGroupIds : List String) : Except BindError Resource :=
  if containerPort == tgPort then
    Except.ok { id := "service", kind := "service", config := [],
                dependsOn := [clusterId, taskDefId, tgId] ++ securityGroupIds }
  else
    Except.error (BindError.incompatiblePort containerPort tgPort)

/-! ### Credential wiring of the stack source (lines 71–99 and 162–174) -/

/-- A reference to one JSON field of a named secret:
`databaseCredentialSecret.secretValueFromJson(field)` with
`secretName: "postgresql"` (source lines 71–81). -/
structure SecretRef where
  secretName : String
  jsonField : String
deriving DecidableEq, Repr

def dbSecretName : String := "postgresql"

/-- The database credentials of the stack source (lines 94–99):
`rds.Credentials.fromPassword(secret.secretValueFromJson('username'),
secret.secretValueFromJson('password'))`. -/
structure DbCredentials where
  username : SecretRef
  password : SecretRef
deriving DecidableEq, Repr

def postgresqlCredentials : DbCredentials :=
  { username := { secretName := dbSecretName, jsonField := "username" },
    password := { secretName := dbSecretName, jsonField := "password" } }

/-- A container environment value (source lines 167–173): a literal, a secret
field reference, or a deferred attribute of the database instance. -/
inductive EnvValue where
  | lit (s : String)
  | fromSecret (r : SecretRef)
  | fromInstance (resourceId : String) (fieldName : String)
deriving DecidableEq, Repr

/-- The container environment of the stack source (lines 167–173). -/
def containerEnvironment : List (String × EnvValue) :=
  [ ("DB_HOST", EnvValue.fromInstance "db" "hostname"),
    ("DB_PORT", EnvValue.fromInstance "db" "port"),
    ("DB_NAME", EnvValue.lit "testdatabase"),
    ("DB_USER", EnvValue.fromSecret { secretName := dbSecretName, jsonField := "username" }),
    ("APP_DATABASE_PASSWORD",
      EnvValue.fromSecret { secretName := dbSecretName, jsonField := "password" }) ]

/-- Look up one container environment variable. -/
def envLookup (name : String) : Option EnvValue :=
  (containerEnvironment.find? fun p => p.1 == name).map Prod.snd

/-! ### Health endpoint (source `src/unnamed/part_000`) -/

inductive DbError where
  | connError
deriving DecidableEq, Repr

structure HttpResponse where
  status : Nat
  body : String
deriving DecidableEq, Repr

/-- `HealthcheckController#hc` (source part_000): executes `SELECT 1` against
the datastore and renders `{"status":"ok"}`; a raised connection error
propagates out of the handler. -/
def hc (dbExec : String → Except DbError Unit) : Except DbError HttpResponse :=
  match dbExec "SELECT 1" with
  | Except.error e => Except.error e
  | Except.ok _ => Except.ok { status := 200, body := "\x7b\"status\":\"ok\"\x7d" }

/-- Modelled from the spec: the full request/response contract of `GET /hc`
(spec §6) — the framework's handling of an escaped connection error is not in
`src/`, and the spec only fixes it to a non-200 response (500 here).  The
handler keeps no internal state: the response is a pure function of the
connectivity-check outcome. -/
def hcEndpoint (dbOk : Bool) : HttpResponse :=
  match hc (fun _ => if dbOk then Except.ok () else Except.error DbError.connError) with
  | Except.ok resp => resp
  | Except.error _ => { status := 500, body := "Internal Server Error" }

/-! ### Concrete stubs and small graphs used to exercise the model -/

/-- A resource whose config holds a Deferred Attribute pointing at itself:
the self-referencing cycle of spec §8. -/
def selfRefResource : Resource :=
  { id := "a", kind := "k", config := [("f", Attr.deferred "a" "out")], dependsOn := [] }

def selfRefGraph : List Resource := [selfRefResource]

/-- A provider stub returning the same outputs on every call. -/
def constCreate : ProviderFun := fun _ _ _ => Except.ok [("out", "v")]

/-- A two-resource graph whose second resource consumes a Deferred Attribute
of the first. -/
def wGraph : List Resource :=
  [ { id := "a", kind := "ka", config := [], dependsOn := [] },
    { id := "b", kind := "kb", config := [("x", Attr.deferred "a" "out")], dependsOn := [] } ]

/-- The retry scenario stub of spec §8: fails with a transient error on the
first two attempts for the `flaky` resource and succeeds on the third. -/
def flakyCreate : ProviderFun := fun kind _ n =>
  if kind == "flaky" then
    (if n < 2 then Except.error ProvErr.transient else Except.ok [("out", "v")])
  else Except.ok [("out", "v")]

/-- A stub whose `flaky` resource never stops failing transiently. -/
def alwaysTransient : ProviderFun := fun kind _ _ =>
  if kind == "flaky" then Except.error ProvErr.transient else Except.ok [("out", "v")]

/-- The two-resource graph for the retry scenario. -/
def retryGraph : List Resource :=
  [ { id := "a", kind := "base", config := [], dependsOn := [] },
    { id := "b", kind := "flaky", config := [], dependsOn := ["a"] } ]

/-- Resolve one container environment value given a resolution of secret
references and of instance attributes. -/
def resolveEnvValue (resolveSecret : SecretRef → String)
    (resolveInstance : String → String → String) : EnvValue → String
  | EnvValue.lit s => s
  | EnvValue.fromSecret r => resolveSecret r
  | EnvValue.fromInstance rid f => resolveInstance rid f

/-! ## Theorems -/

theorem pickReady_spec (done : List Resource) (pend : List Resource) :
    ∀ (x : Resource) (rest : List Resource),
      pickReady done pend = some (x, rest) →
      readyIn done x = true ∧ x ∈ pend ∧
      (∀ r ∈ pend, r = x ∨ r ∈ rest) ∧ (∀ r ∈ rest, r ∈ pend) := by
  induction pend with
  | nil => intro x rest h; simp [pickReady] at h
  | cons r rs ih =>
    intro x rest h
    rw [pickReady] at h
    by_cases hr : readyIn done r
    · rw [if_pos hr] at h
      obtain ⟨hx, hrs⟩ : r = x ∧ rs = rest := by
        simpa using h
      subst hx; subst hrs
      refine ⟨hr, List.mem_cons_self _ _, ?_, ?_⟩
      · intro q hq
        exact List.mem_cons.mp hq
      · intro q hq
        exact List.mem_cons_of_mem _ hq
    · rw [if_neg hr] at h
      cases hp : pickReady done rs with
      | none => rw [hp] at h; simp at h
      | some pr =>
        obtain ⟨y, rest2⟩ := pr
        rw [hp] at h
        obtain ⟨hy, hrest⟩ : y = x ∧ r :: rest2 = rest := by
          simpa using h
        subst hy; subst hrest
        obtain ⟨h1, h2, h3, h4⟩ := ih _ rest2 hp
        refine ⟨h1, List.mem_cons_of_mem _ h2, ?_, ?_⟩
        · intro q hq
          rcases List.mem_cons.mp hq with hq | hq
          · exact Or.inr (hq ▸ List.mem_cons_self _ _)
          · rcases h3 q hq with hqx | hqr
            · exact Or.inl hqx
            · exact Or.inr (List.mem_cons_of_mem _ hqr)
        · intro q hq
          rcases List.mem_cons.mp hq with hq | hq
          · exact hq ▸ List.mem_cons_self _ _
          · exact List.mem_cons_of_mem _ (h4 q hq)

theorem topoAux_ok_spec :
    ∀ (fuel : Nat) (pend acc out : List Resource),
      topoAux fuel pend acc = Except.ok out →
      ∃ tail, out = acc ++ tail ∧
        ∀ r ∈ pend, ∃ pre post, tail = pre ++ r :: post ∧
          ∀ d ∈ r.allDeps, ((acc ++ pre).any fun x => x.id == d) = true := by
  intro fuel
  induction fuel with
  | zero =>
    intro pend acc out h
    cases pend with
    | nil =>
      refine ⟨[], ?_, by simp⟩
      have : acc = out := by simpa [topoAux] using h
      simp [this]
    | cons r rs => simp [topoAux] at h
  | succ fuel ih =>
    intro pend acc out h
    cases pend with
    | nil =>
      refine ⟨[], ?_, by simp⟩
      have : acc = out := by simpa [topoAux] using h
      simp [this]
    | cons r rs =>
      rw [topoAux] at h
      cases hp : pickReady acc (r :: rs) with
      | none => rw [hp] at h; simp at h
      | some pr =>
        obtain ⟨x, rest⟩ := pr
        rw [hp] at h
        obtain ⟨hready, _, hcover, _⟩ := pickReady_spec acc (r :: rs) x rest hp
        obtain ⟨tail', htl, hres⟩ := ih rest (acc ++ [x]) out h
        refine ⟨x :: tail', by simpa using htl, ?_⟩
        intro q hq
        rcases hcover q hq with hqx | hqrest
        · subst hqx
          refine ⟨[], tail', rfl, ?_⟩
          intro d hd
          have hall := List.all_eq_true.mp hready d hd
          simpa using hall
        · obtain ⟨pre, post, hpre, hdeps⟩ := hres q hqrest
          refine ⟨x :: pre, post, by simp [hpre], ?_⟩
          intro d hd
          have := hdeps d hd
          simpa [List.append_assoc] using this

theorem pickReady_none (done : List Resource) :
    ∀ pend : List Resource, pickReady done pend = none →
      ∀ r ∈ pend, readyIn done r = false := by
  intro pend
  induction pend with
  | nil => intro _ r hr; exact absurd hr (List.not_mem_nil r)
  | cons a rs ih =>
    intro h r hr
    rw [pickReady] at h
    by_cases ha : readyIn done a
    · rw [if_pos ha] at h; simp at h
    · rw [if_neg ha] at h
      cases hp : pickReady done rs with
      | some pr =>
        obtain ⟨y, r2⟩ := pr
        rw [hp] at h; simp at h
      | none =>
        rcases List.mem_cons.mp hr with hr | hr
        · rw [hr]; exact Bool.eq_false_iff.mpr ha
        · exact ih hp r hr

theorem pickReady_length (done : List Resource) :
    ∀ (pend : List Resource) (x : Resource) (rest : List Resource),
      pickReady done pend = some (x, rest) → rest.length + 1 = pend.length := by
  intro pend
  induction pend with
  | nil => intro x rest h; simp [pickReady] at h
  | cons a rs ih =>
    intro x rest h
    rw [pickReady] at h
    by_cases ha : readyIn done a
    · rw [if_pos ha] at h
      obtain ⟨hx, hrs⟩ : a = x ∧ rs = rest := by simpa using h
      rw [← hrs]
      rfl
    · rw [if_neg ha] at h
      cases hp : pickReady done rs with
      | none => rw [hp] at h; simp at h
      | some pr =>
        obtain ⟨y, r2⟩ := pr
        rw [hp] at h
        obtain ⟨hy, hr⟩ : y = x ∧ a :: r2 = rest := by simpa using h
        have hlen := ih y r2 hp
        rw [← hr]
        simp only [List.length_cons]
        omega

theorem stuck_has_cycle (g : List Resource)
    (hclosed : ∀ r ∈ g, ∀ d ∈ r.allDeps, ∃ w, w ∈ g ∧ w.id = d)
    (pend acc : List Resource) (hne : pend ≠ [])
    (hsub : ∀ r ∈ pend, r ∈ g)
    (hcover : ∀ w ∈ g, w ∈ acc ∨ w ∈ pend)
    (hstuck : pickReady acc pend = none) :
    ∃ c, isCycle g c := by
  have hnotready := pickReady_none acc pend hstuck
  have hnext : ∀ r : {x // x ∈ pend}, ∃ w : {x // x ∈ pend}, w.val.id ∈ r.val.allDeps := by
    rintro ⟨r, hr⟩
    have hf : readyIn acc r = false := hnotready r hr
    have hnall : ¬ ∀ d ∈ r.allDeps, (acc.any fun x => x.id == d) = true := by
      intro hall
      have : readyIn acc r = true := List.all_eq_true.mpr hall
      rw [this] at hf
      simp at hf
    push_neg at hnall
    obtain ⟨d, hd, hany⟩ := hnall
    obtain ⟨w, hwg, hwid⟩ := hclosed r (hsub r hr) d hd
    have hwnacc : w ∉ acc := by
      intro hwacc
      exact hany (List.any_eq_true.mpr ⟨w, hwacc, by simp [hwid]⟩)
    have hwpend : w ∈ pend := (hcover w hwg).resolve_left hwnacc
    exact ⟨⟨w, hwpend⟩, by rw [hwid]; exact hd⟩
  choose fnext hfnext using hnext
  obtain ⟨r0, hr0⟩ : ∃ r, r ∈ pend := by
    cases pend with
    | nil => exact absurd rfl hne
    | cons a l => exact ⟨a, List.mem_cons_self _ _⟩
  set seq : Nat → {x // x ∈ pend} := fun n => fnext^[n] ⟨r0, hr0⟩ with hseqdef
  have hstep : ∀ n, (seq (n + 1)).val.id ∈ (seq n).val.allDeps := by
    intro n
    have hit : seq (n + 1) = fnext (seq n) := Function.iterate_succ_apply' fnext n _
    rw [hit]
    exact hfnext (seq n)
  have hidx : ∀ n, List.indexOf (seq n).val pend < pend.length :=
    fun n => List.indexOf_lt_length.mpr (seq n).property
  obtain ⟨a, b, hab, heq⟩ :=
    Fintype.exists_ne_map_eq_of_card_lt
      (fun i : Fin (pend.length + 1) =>
        (⟨List.indexOf (seq i.val).val pend, hidx i.val⟩ : Fin pend.length))
      (by simp)
  have hseq_eq : (seq a.val).val = (seq b.val).val := by
    have h1 := List.indexOf_get (hidx a.val)
    have h2 := List.indexOf_get (hidx b.val)
    rw [← h1, ← h2]
    exact congrArg pend.get heq
  obtain ⟨A, B, hAB, hABeq⟩ :
      ∃ A B : Nat, A < B ∧ (seq A).val = (seq B).val := by
    rcases Nat.lt_trichotomy a.val b.val with hlt | heqv | hgt
    · exact ⟨a.val, b.val, hlt, hseq_eq⟩
    · exact absurd (Fin.ext heqv) hab
    · exact ⟨b.val, a.val, hgt, hseq_eq.symm⟩
  have hLpos : 0 < B - A := Nat.sub_pos_of_lt hAB
  refine ⟨(List.range (B - A)).map fun k => (seq (A + k)).val.id, ?_⟩
  have hclen : ((List.range (B - A)).map fun k => (seq (A + k)).val.id).length = B - A := by
    simp
  refine ⟨by rw [hclen]; exact hLpos, ?_⟩
  intro i
  have hget : ∀ (j : Nat) (hj : j < ((List.range (B - A)).map
      fun k => (seq (A + k)).val.id).length),
      ((List.range (B - A)).map fun k => (seq (A + k)).val.id).get ⟨j, hj⟩
        = (seq (A + j)).val.id := by
    intro j hj
    simp
  obtain ⟨j, hj⟩ := i
  dsimp only
  have hjL : j < B - A := hclen ▸ hj
  refine ⟨(seq (A + j)).val, hsub _ (seq (A + j)).property, (hget j hj).symm, ?_⟩
  rw [hget, hclen]
  by_cases hcase : j + 1 < B - A
  · rw [Nat.mod_eq_of_lt hcase]
    have hadd : A + (j + 1) = A + j + 1 := by omega
    rw [hadd]
    exact hstep (A + j)
  · have hlast : j + 1 = B - A := by omega
    rw [hlast, Nat.mod_self]
    have hA0 : A + 0 = A := rfl
    have hBi : B = A + j + 1 := by omega
    rw [hA0, hABeq, hBi]
    exact hstep (A + j)

theorem topoAux_progress (g : List Resource)
    (hclosed : ∀ r ∈ g, ∀ d ∈ r.allDeps, ∃ w, w ∈ g ∧ w.id = d) :
    ∀ (fuel : Nat) (pend acc : List Resource),
      pend.length ≤ fuel →
      (∀ r ∈ pend, r ∈ g) →
      (∀ w ∈ g, w ∈ acc ∨ w ∈ pend) →
      (∃ out, topoAux fuel pend acc = Except.ok out) ∨ ∃ c, isCycle g c := by
  intro fuel
  induction fuel with
  | zero =>
    intro pend acc hlen hsub hcover
    cases pend with
    | nil => exact Or.inl ⟨acc, rfl⟩
    | cons a l => simp only [List.length_cons] at hlen; omega
  | succ fuel ih =>
    intro pend acc hlen hsub hcover
    cases pend with
    | nil => exact Or.inl ⟨acc, rfl⟩
    | cons a l =>
      cases hp : pickReady acc (a :: l) with
      | none =>
        exact Or.inr (stuck_has_cycle g hclosed (a :: l) acc (by simp) hsub hcover hp)
      | some pr =>
        obtain ⟨x, rest2⟩ := pr
        obtain ⟨_, _, hcov2, hsub2⟩ := pickReady_spec acc (a :: l) x rest2 hp
        have hlen2 : rest2.length ≤ fuel := by
          have hplen := pickReady_length acc (a :: l) x rest2 hp
          simp only [List.length_cons] at hlen hplen
          omega
        have hsubg : ∀ r ∈ rest2, r ∈ g := fun r hr => hsub r (hsub2 r hr)
        have hcover2 : ∀ w ∈ g, w ∈ acc ++ [x] ∨ w ∈ rest2 := by
          intro w hw
          rcases hcover w hw with hwa | hwp
          · exact Or.inl (List.mem_append_left _ hwa)
          · rcases hcov2 w hwp with hwx | hwr
            · exact Or.inl (List.mem_append_right _ (by simp [hwx]))
            · exact Or.inr hwr
        rcases ih rest2 (acc ++ [x]) hlen2 hsubg hcover2 with ⟨out, hout⟩ | hcyc
        · exact Or.inl ⟨out, by rw [topoAux, hp]; exact hout⟩
        · exact Or.inr hcyc

/-- C1: on every well-formed acyclic graph (each dependency id names a
declared resource) `topologicalOrder()` succeeds, and whenever it succeeds
each resource appears after every id in its `dependsOn` set and after the
source of every Deferred Attribute in its config; on the scenario graph of
the stack source the order starts with `vpc` and ends with `service`. -/
theorem c1_topological_order_correct :
    (∀ (g : List Resource) (order : List String),
        topologicalOrder g = Except.ok order →
        ∀ r ∈ g, ∃ pre post, order = pre ++ r.id :: post ∧
          (∀ d ∈ r.dependsOn, d ∈ pre) ∧
          ∀ d ∈ r.deferredSources, d ∈ pre) ∧
    (∀ g : List Resource,
        (∀ r ∈ g, ∀ d ∈ r.allDeps, ∃ w, w ∈ g ∧ w.id = d) →
        (∀ c, ¬ isCycle g c) →
        ∃ order, topologicalOrder g = Except.ok order) ∧
    topologicalOrder scenarioGraph =
      Except.ok ["vpc", "sg-elb", "sg-app", "db", "alb", "tg", "cluster", "taskdef", "service"] ∧
    ∃ order, topologicalOrder scenarioGraph = Except.ok order ∧
      order.head? = some "vpc" ∧ order.getLast? = some "service" := by
  refine ⟨?_, ?_, rfl, ?_⟩
  · intro g order h r hr
    unfold topologicalOrder at h
    cases ho : orderedResources g with
    | error e => rw [ho] at h; simp [Except.map] at h
    | ok l =>
      rw [ho] at h
      obtain rfl : l.map Resource.id = order := by simpa [Except.map] using h
      obtain ⟨tail, htl, hres⟩ := topoAux_ok_spec g.length g [] l ho
      obtain ⟨pre, post, hpre, hdeps⟩ := hres r hr
      have hl : l = pre ++ r :: post := by simpa using htl.trans hpre
      refine ⟨pre.map Resource.id, post.map Resource.id, by simp [hl], ?_, ?_⟩
      · intro d hd
        have hany := hdeps d (List.mem_append_left _ hd)
        have hex : ∃ x ∈ pre, x.id = d := by simpa using hany
        obtain ⟨x, hx, hxd⟩ := hex
        exact List.mem_map.mpr ⟨x, hx, hxd⟩
      · intro d hd
        have hany := hdeps d (List.mem_append_right _ hd)
        have hex : ∃ x ∈ pre, x.id = d := by simpa using hany
        obtain ⟨x, hx, hxd⟩ := hex
        exact List.mem_map.mpr ⟨x, hx, hxd⟩
  · intro g hclosed hacyc
    rcases topoAux_progress g hclosed g.length g [] (Nat.le_refl _)
        (fun r hr => hr) (fun w hw => Or.inr hw) with ⟨out, hout⟩ | ⟨c, hc⟩
    · refine ⟨out.map Resource.id, ?_⟩
      unfold topologicalOrder orderedResources
      rw [hout]
      rfl
    · exact absurd hc (hacyc c)
  · exact ⟨["vpc", "sg-elb", "sg-app", "db", "alb", "tg", "cluster", "taskdef",
      "service"], rfl, rfl, rfl⟩

/-- Witness for C1: instantiated on the scenario graph at the `service`
resource, whose dependencies `cluster` and `sg-app` indeed precede it. -/
theorem c1_witness :
    ∃ pre post,
      (["vpc", "sg-elb", "sg-app", "db", "alb", "tg", "cluster", "taskdef",
        "service"] : List String) = pre ++ "service" :: post ∧
      "cluster" ∈ pre ∧ "sg-app" ∈ pre := by
  obtain ⟨pre, post, heq, hdep, _⟩ :=
    c1_topological_order_correct.1 scenarioGraph
      ["vpc", "sg-elb", "sg-app", "db", "alb", "tg", "cluster", "taskdef", "service"]
      rfl
      { id := "service", kind := "service", config := [],
        dependsOn := ["cluster", "taskdef", "tg", "sg-app"] }
      (by decide)
  exact ⟨pre, post, heq, hdep "cluster" (by decide), hdep "sg-app" (by decide)⟩

theorem id_inj_of_nodup {g : List Resource} (hnd : (g.map Resource.id).Nodup)
    {r x : Resource} (hr : r ∈ g) (hx : x ∈ g) (h : r.id = x.id) : r = x :=
  List.inj_on_of_nodup_map hnd hr hx h

theorem topoAux_cycle_spec (g : List Resource) (c : List String)
    (hnd : (g.map Resource.id).Nodup) (hcyc : isCycle g c) :
    ∀ (fuel : Nat) (pend acc : List Resource),
      (∀ r ∈ pend, r ∈ g) →
      (∀ m ∈ c, ∃ r, r ∈ pend ∧ r.id = m) →
      (∀ m ∈ c, ∀ x ∈ acc, x.id ≠ m) →
      ∃ members,
        topoAux fuel pend acc = Except.error (GraphError.cycleDetected members) ∧
        ∀ m ∈ c, m ∈ members := by
  obtain ⟨hpos, hedge⟩ := hcyc
  intro fuel
  induction fuel with
  | zero =>
    intro pend acc hsub hmem hacc
    cases pend with
    | nil =>
      obtain ⟨r, hr, _⟩ := hmem (c.get ⟨0, hpos⟩) (List.get_mem c 0 hpos)
      exact absurd hr (List.not_mem_nil r)
    | cons r rs =>
      refine ⟨(r :: rs).map Resource.id, rfl, ?_⟩
      intro m hm
      obtain ⟨x, hx, hxid⟩ := hmem m hm
      exact List.mem_map.mpr ⟨x, hx, hxid⟩
  | succ fuel ih =>
    intro pend acc hsub hmem hacc
    cases pend with
    | nil =>
      obtain ⟨r, hr, _⟩ := hmem (c.get ⟨0, hpos⟩) (List.get_mem c 0 hpos)
      exact absurd hr (List.not_mem_nil r)
    | cons r rs =>
      cases hp : pickReady acc (r :: rs) with
      | none =>
        refine ⟨(r :: rs).map Resource.id, by rw [topoAux, hp], ?_⟩
        intro m hm
        obtain ⟨x, hx, hxid⟩ := hmem m hm
        exact List.mem_map.mpr ⟨x, hx, hxid⟩
      | some pr =>
        obtain ⟨x, rest2⟩ := pr
        obtain ⟨hready, hxmem, hcover, hsubrest⟩ := pickReady_spec acc (r :: rs) x rest2 hp
        have hxc : ∀ m ∈ c, x.id ≠ m := by
          intro m hm hxm
          obtain ⟨i, hi⟩ := List.mem_iff_get.mp hm
          obtain ⟨w, hwg, hwid, hwdep⟩ := hedge i
          have hwx : w = x :=
            id_inj_of_nodup hnd hwg (hsub x hxmem) (by rw [hwid, hi, hxm])
          have hdep : c.get ⟨(i.val + 1) % c.length, Nat.mod_lt _ hpos⟩ ∈ x.allDeps := by
            rw [← hwx]; exact hwdep
          have hany := List.all_eq_true.mp hready _ hdep
          have hex : ∃ y ∈ acc, y.id = c.get ⟨(i.val + 1) % c.length, Nat.mod_lt _ hpos⟩ := by
            simpa using hany
          obtain ⟨y, hy, hyid⟩ := hex
          exact hacc _ (List.get_mem c _ _) y hy hyid
        have hmem2 : ∀ m ∈ c, ∃ q, q ∈ rest2 ∧ q.id = m := by
          intro m hm
          obtain ⟨y, hy, hyid⟩ := hmem m hm
          rcases hcover y hy with hyx | hyr
          · exact absurd hyid (hyx ▸ hxc m hm)
          · exact ⟨y, hyr, hyid⟩
        have hacc2 : ∀ m ∈ c, ∀ z ∈ acc ++ [x], z.id ≠ m := by
          intro m hm z hz
          rcases List.mem_append.mp hz with hz | hz
          · exact hacc m hm z hz
          · rw [List.mem_singleton.mp hz]; exact hxc m hm
        obtain ⟨members, hrec, hall⟩ :=
          ih rest2 (acc ++ [x]) (fun q hq => hsub q (hsubrest q hq)) hmem2 hacc2
        exact ⟨members, by rw [topoAux, hp]; exact hrec, hall⟩

/-- C2: every graph containing a cycle (explicit `dependsOn` edges or edges
induced by Deferred Attributes) makes `topologicalOrder()` fail with
`CycleDetectedError` whose report contains every member of the cycle — in
particular at least one — and `synthesize` then fails with the same
graph-construction error before any provider call (it does not depend on the
provider at all). -/
theorem c2_cycle_detected (g : List Resource) (c : List String)
    (hnd : (g.map Resource.id).Nodup) (hcyc : isCycle g c) :
    ∃ members,
      topologicalOrder g = Except.error (GraphError.cycleDetected members) ∧
      (∃ m, m ∈ c ∧ m ∈ members) ∧
      ∀ create : ProviderFun,
        synthesize create g
          = Except.error (SynthError.graphError (GraphError.cycleDetected members)) := by
  obtain ⟨hpos, hedge⟩ := hcyc
  have hinit : ∀ m ∈ c, ∃ r, r ∈ g ∧ r.id = m := by
    intro m hm
    obtain ⟨i, hi⟩ := List.mem_iff_get.mp hm
    obtain ⟨w, hwg, hwid, _⟩ := hedge i
    exact ⟨w, hwg, hi ▸ hwid⟩
  obtain ⟨members, heq, hall⟩ :=
    topoAux_cycle_spec g c hnd ⟨hpos, hedge⟩ g.length g []
      (fun r hr => hr) hinit (by simp)
  refine ⟨members, ?_, ?_, ?_⟩
  · unfold topologicalOrder orderedResources
    rw [heq]; rfl
  · exact ⟨c.get ⟨0, hpos⟩, List.get_mem c 0 hpos, hall _ (List.get_mem c 0 hpos)⟩
  · intro create
    unfold synthesize orderedResources
    rw [heq]

/-- Witness for C2: the one-resource graph whose config holds a Deferred
Attribute pointing at the resource itself. -/
theorem c2_witness :
    ∃ members,
      topologicalOrder selfRefGraph = Except.error (GraphError.cycleDetected members) ∧
      (∃ m, m ∈ ["a"] ∧ m ∈ members) ∧
      ∀ create : ProviderFun,
        synthesize create selfRefGraph
          = Except.error (SynthError.graphError (GraphError.cycleDetected members)) := by
  refine c2_cycle_detected selfRefGraph ["a"] (by decide) ⟨by decide, ?_⟩
  intro i
  fin_cases i
  exact ⟨selfRefResource, by decide, rfl, by decide⟩

theorem synthAux_created (create : ProviderFun) :
    ∀ (rs : List Resource) (outs : List (String × List (String × String)))
      (atts : List (String × Nat)) (created : List String) (res : SynthResult),
      synthAux create rs outs atts created = Except.ok res →
      res.created = created ++ rs.map Resource.id := by
  intro rs
  induction rs with
  | nil =>
    intro outs atts created res h
    obtain rfl : ({ outputs := outs, attempts := atts, created := created } : SynthResult) = res := by
      simpa [synthAux] using h
    simp
  | cons r rest ih =>
    intro outs atts created res h
    rw [synthAux] at h
    cases hrc : resolveConfig outs r.config with
    | none => rw [hrc] at h; simp at h
    | some cfg =>
      rw [hrc] at h
      dsimp only at h
      cases hac : attemptCreate create r.kind cfg retryBudget 0 with
      | error e =>
        obtain ⟨e1, e2⟩ := e
        rw [hac] at h; simp at h
      | ok p =>
        obtain ⟨o, n⟩ := p
        rw [hac] at h
        dsimp only at h
        have := ih _ _ _ _ h
        rw [this]; simp

/-- C3: synthesis is a pure function of the declarations and the provider
stub — two runs with extensionally equal deterministic stubs return equal
resolved-output maps — and the order in which resources are created is exactly
`topologicalOrder()`, hence a function of the declarations alone (declaration
order breaking ties). -/
theorem c3_deterministic_synthesis :
    (∀ (c1 c2 : ProviderFun) (g : List Resource),
        (∀ kind cfg n, c1 kind cfg n = c2 kind cfg n) →
        synthesize c1 g = synthesize c2 g) ∧
    ∀ (create : ProviderFun) (g : List Resource) (res : SynthResult),
      synthesize create g = Except.ok res →
      topologicalOrder g = Except.ok res.created := by
  constructor
  · intro c1 c2 g hext
    have hc : c1 = c2 := funext fun k => funext fun cfg => funext fun n => hext k cfg n
    rw [hc]
  · intro create g res h
    unfold synthesize at h
    cases ho : orderedResources g with
    | error e => rw [ho] at h; simp at h
    | ok rs =>
      rw [ho] at h
      have hcr := synthAux_created create rs [] [] [] res h
      unfold topologicalOrder
      rw [ho]
      simp [Except.map, hcr]

/-- Witness for C3: the two-resource graph `wGraph` under the constant
provider stub. -/
theorem c3_witness :
    synthesize constCreate wGraph = synthesize constCreate wGraph ∧
    topologicalOrder wGraph = Except.ok ["a", "b"] := by
  constructor
  · exact c3_deterministic_synthesis.1 constCreate constCreate wGraph fun _ _ _ => rfl
  · exact c3_deterministic_synthesis.2 constCreate wGraph
      { outputs := [("a", [("out", "v")]), ("b", [("out", "v")])],
        attempts := [("a", 1), ("b", 1)],
        created := ["a", "b"] } rfl

theorem find?_append_of_none {α : Type} (p : α → Bool) :
    ∀ (l1 l2 : List α), l1.find? p = none → (l1 ++ l2).find? p = l2.find? p := by
  intro l1
  induction l1 with
  | nil => intro l2 _; rfl
  | cons a l ih =>
    intro l2 h
    cases hp : p a with
    | true => rw [List.find?_cons_of_pos _ hp] at h; simp at h
    | false =>
      rw [List.find?_cons_of_neg _ (by rw [hp]; exact Bool.false_ne_true)] at h
      rw [List.cons_append, List.find?_cons_of_neg _ (by rw [hp]; exact Bool.false_ne_true)]
      exact ih l2 h

theorem allowedChars_dbPolicy_sound :
    ∀ ch ∈ allowedChars dbPolicy, isPunct ch = false ∧ ch.isWhitespace = false := by
  decide

theorem genPassword_mem (p : GenPolicy) (hp : 0 < (allowedChars p).length)
    (seeds : List Nat) : ∀ ch ∈ genPassword p seeds, ch ∈ allowedChars p := by
  intro ch hch
  obtain ⟨n, _, hch⟩ := List.mem_map.mp hch
  rw [← hch]
  have hlt : n % (allowedChars p).length < (allowedChars p).length := Nat.mod_lt _ hp
  rw [List.getD_eq_getElem _ _ hlt]
  exact List.getElem_mem hlt

/-- C4: passwords generated under the policy of `databaseCredentialSecret`
(`excludePunctuation: true, includeSpace: false`) contain no punctuation and
no whitespace; a password is generated exactly once — a second `generate` for
the same secret name leaves the store and the Credential unchanged — and every
lookup after generation returns the stored password; the Credential exposes
the password as a Deferred Attribute and the template username as a Literal. -/
theorem c4_credential_generation :
    (∀ (seeds : List Nat), ∀ ch ∈ genPassword dbPolicy seeds,
        isPunct ch = false ∧ ch.isWhitespace = false) ∧
    ∀ (st : SecretStore) (name user : String) (p : GenPolicy) (seeds seeds2 : List Nat),
      st.lookupPassword name = none →
      ((st.generate name user p seeds).1.lookupPassword name
          = some (genPassword p seeds)) ∧
      ((st.generate name user p seeds).1.generate name user p seeds2)
          = ((st.generate name user p seeds).1, (st.generate name user p seeds).2) ∧
      (st.generate name user p seeds).2.password = Attr.deferred name "password" ∧
      (st.generate name user p seeds).2.username = Attr.lit user := by
  constructor
  · intro seeds ch hch
    exact allowedChars_dbPolicy_sound ch (genPassword_mem dbPolicy (by decide) seeds ch hch)
  · intro st name user p seeds seeds2 hnone
    have hf : st.secrets.find? (fun q => q.1 == name) = none := by
      unfold SecretStore.lookupPassword at hnone
      exact Option.map_eq_none'.mp hnone
    have hgen : st.generate name user p seeds
        = ({ secrets := st.secrets ++ [(name, genPassword p seeds)] },
           { username := Attr.lit user, password := Attr.deferred name "password" }) := by
      unfold SecretStore.generate
      rw [hf]
    have hfind : (st.secrets ++ [(name, genPassword p seeds)]).find?
        (fun q => q.1 == name) = some (name, genPassword p seeds) := by
      rw [find?_append_of_none _ _ _ hf]
      simp [List.find?]
    refine ⟨?_, ?_, ?_, ?_⟩
    · rw [hgen]
      unfold SecretStore.lookupPassword
      rw [hfind]
      rfl
    · rw [hgen]
      unfold SecretStore.generate
      rw [hfind]
    · rw [hgen]
    · rw [hgen]

/-- Witness for C4: the empty store, the `postgresql` secret of the stack
source with username `dbuser`, and one concrete seed list. -/
theorem c4_witness :
    (isPunct '0' = false ∧ '0'.isWhitespace = false) ∧
    ((SecretStore.mk []).generate "postgresql" "dbuser" dbPolicy [0, 5, 10]).1.lookupPassword
        "postgresql" = some (genPassword dbPolicy [0, 5, 10]) := by
  constructor
  · exact c4_credential_generation.1 [0] '0' (by decide)
  · exact (c4_credential_generation.2 (SecretStore.mk []) "postgresql" "dbuser" dbPolicy
      [0, 5, 10] [] rfl).1

theorem buildTopology_sound (groups : List String) :
    ∀ (rules out : List SecurityRule),
      buildTopology groups rules = Except.ok out →
      out = rules ∧ ∀ r ∈ out, ∀ gref ∈ ruleRefs r, gref ∈ groups := by
  intro rules
  induction rules with
  | nil =>
    intro out h
    obtain rfl : ([] : List SecurityRule) = out := by simpa [buildTopology] using h
    exact ⟨rfl, by simp⟩
  | cons r rest ih =>
    intro out h
    rw [buildTopology] at h
    cases hh : ((ruleRefs r).filter fun g => !(decide (g ∈ groups))).head? with
    | some gbad => rw [hh] at h; simp at h
    | none =>
      rw [hh] at h
      cases hb : buildTopology groups rest with
      | error e => rw [hb] at h; simp [Except.map] at h
      | ok l =>
        rw [hb] at h
        obtain rfl : r :: l = out := by simpa [Except.map] using h
        obtain ⟨rfl, hrefs⟩ := ih l hb
        have hok : ∀ gref ∈ ruleRefs r, gref ∈ groups := by
          intro gref hg
          by_contra hng
          have hmem : gref ∈ (ruleRefs r).filter fun g => !(decide (g ∈ groups)) :=
            List.mem_filter.mpr ⟨hg, by simp [hng]⟩
          rw [List.head?_eq_none_iff.mp hh] at hmem
          exact List.not_mem_nil gref hmem
        refine ⟨rfl, ?_⟩
        intro q hq
        rcases List.mem_cons.mp hq with hq | hq
        · exact hq ▸ hok
        · exact hrefs q hq

/-- C5: `NetworkTopology` built from the stack source emits exactly the three
ingress rule chains — any IPv4 → `sg-elb` on port 80, `sg-elb` → `sg-app` on
the app port, `sg-app` → `sg-rds` on port 5432; every emitted rule references
only declared groups (in general, whenever construction succeeds), and a rule
referencing the undeclared `sg-missing` makes construction fail with
`UnknownGroupError "sg-missing"`. -/
theorem c5_network_topology :
    buildTopology declaredGroups ingressRules = Except.ok ingressRules ∧
    ingressRules =
      [ { src := RuleSource.anyIpv4, toGroup := "sg-elb", port := 80 },
        { src := RuleSource.group "sg-elb", toGroup := "sg-app", port := appPort },
        { src := RuleSource.group "sg-app", toGroup := "sg-rds", port := 5432 } ] ∧
    (∀ (groups : List String) (rules out : List SecurityRule),
        buildTopology groups rules = Except.ok out →
        ∀ r ∈ out, ∀ gref ∈ ruleRefs r, gref ∈ groups) ∧
    buildTopology declaredGroups
        (ingressRules ++ [{ src := RuleSource.group "sg-missing", toGroup := "sg-app",
                            port := appPort }])
      = Except.error (TopoError.unknownGroup "sg-missing") := by
  refine ⟨rfl, rfl, ?_, rfl⟩
  intro groups rules out h
  exact (buildTopology_sound groups rules out h).2

/-- Witness for C5: every reference of the first emitted rule is a declared
group. -/
theorem c5_witness :
    ("sg-elb" : String) ∈ declaredGroups := by
  refine c5_network_topology.2.2.1 declaredGroups ingressRules ingressRules
    c5_network_topology.1
    { src := RuleSource.anyIpv4, toGroup := "sg-elb", port := 80 } (by decide)
    "sg-elb" (by decide)

/-- C6: `ServiceBinder.bind` fails — necessarily with `IncompatiblePortError`
carrying the two ports — exactly when the task definition's container port
differs from the target group's port; on matching ports it declares the
Service Resource depending on the cluster, the task definition, the target
group and the security groups; container port 3000 against target-group port
80 fails. -/
theorem c6_incompatible_port :
    (∀ (clusterId taskDefId tgId : String) (cp tp : Nat) (sgs : List String),
        bind clusterId taskDefId tgId cp tp sgs
            = Except.error (BindError.incompatiblePort cp tp) ↔ cp ≠ tp) ∧
    (∀ (clusterId taskDefId tgId : String) (tp : Nat) (sgs : List String),
        bind clusterId taskDefId tgId tp tp sgs
          = Except.ok { id := "service", kind := "service", config := [],
                        dependsOn := [clusterId, taskDefId, tgId] ++ sgs }) ∧
    bind "cluster" "taskdef" "tg" 3000 80 ["sg-app"]
      = Except.error (BindError.incompatiblePort 3000 80) := by
  refine ⟨?_, ?_, rfl⟩
  · intro clusterId taskDefId tgId cp tp sgs
    unfold bind
    by_cases hpt : cp = tp
    · simp [hpt]
    · simp [hpt]
  · intro clusterId taskDefId tgId tp sgs
    unfold bind
    simp

/-- Witness for C6: ports 5 and 9 differ, so binding fails with
`IncompatiblePortError 5 9`. -/
theorem c6_witness :
    bind "c" "t" "g" 5 9 [] = Except.error (BindError.incompatiblePort 5 9) :=
  (c6_incompatible_port.1 "c" "t" "g" 5 9 []).mpr (by decide)

theorem attemptCreate_succ (create : ProviderFun) (kind : String)
    (cfg : List (String × String)) (k n : Nat) :
    attemptCreate create kind cfg (Nat.succ k) n =
      match create kind cfg n with
      | Except.ok outs => Except.ok (outs, n + 1)
      | Except.error ProvErr.permanent => Except.error (ProvErr.permanent, n + 1)
      | Except.error ProvErr.transient =>
        if k = 0 then Except.error (ProvErr.transient, n + 1)
        else attemptCreate create kind cfg k (n + 1) := rfl

theorem attemptCreate_transient_step (create : ProviderFun) (kind : String)
    (cfg : List (String × String)) (k n : Nat)
    (h : create kind cfg n = Except.error ProvErr.transient) (hk : k ≠ 0) :
    attemptCreate create kind cfg (Nat.succ k) n
      = attemptCreate create kind cfg k (n + 1) := by
  rw [attemptCreate_succ, h]
  simp [hk]

theorem attemptCreate_ok_step (create : ProviderFun) (kind : String)
    (cfg : List (String × String)) (k n : Nat) (out : List (String × String))
    (h : create kind cfg n = Except.ok out) :
    attemptCreate create kind cfg (Nat.succ k) n = Except.ok (out, n + 1) := by
  rw [attemptCreate_succ, h]

/-- C7: a transient provider failure is retried within the fixed budget for
the failing resource alone — a stub that fails transiently on the first two
attempts and succeeds on the third makes synthesis complete with exactly 3
recorded attempts for that resource (and 1 for the healthy one) — while
exhausting the budget is fatal: the walk halts with the transiently failing
resource reported and the previously synthesized resources left created. -/
theorem c7_transient_retry :
    (∀ (create : ProviderFun) (kind : String) (cfg out : List (String × String)),
        create kind cfg 0 = Except.error ProvErr.transient →
        create kind cfg 1 = Except.error ProvErr.transient →
        create kind cfg 2 = Except.ok out →
        attemptCreate create kind cfg retryBudget 0 = Except.ok (out, 3)) ∧
    synthesize flakyCreate retryGraph = Except.ok
      { outputs := [("a", [("out", "v")]), ("b", [("out", "v")])],
        attempts := [("a", 1), ("b", 3)],
        created := ["a", "b"] } ∧
    synthesize alwaysTransient retryGraph
      = Except.error (SynthError.providerFailed "b" ProvErr.transient ["a"]) := by
  refine ⟨?_, rfl, rfl⟩
  intro create kind cfg out h0 h1 h2
  have s1 : attemptCreate create kind cfg 3 0 = attemptCreate create kind cfg 2 1 :=
    attemptCreate_transient_step create kind cfg 2 0 h0 (by decide)
  have s2 : attemptCreate create kind cfg 2 1 = attemptCreate create kind cfg 1 2 :=
    attemptCreate_transient_step create kind cfg 1 1 h1 (by decide)
  have s3 : attemptCreate create kind cfg 1 2 = Except.ok (out, 3) :=
    attemptCreate_ok_step create kind cfg 0 2 out h2
  show attemptCreate create kind cfg 3 0 = Except.ok (out, 3)
  rw [s1, s2, s3]

/-- Witness for C7: the scenario stub itself satisfies the three attempt
hypotheses for the `flaky` kind. -/
theorem c7_witness :
    attemptCreate flakyCreate "flaky" [] retryBudget 0
      = Except.ok ([("out", "v")], 3) :=
  c7_transient_retry.1 flakyCreate "flaky" [] [("out", "v")] rfl rfl rfl

/-- C8: `GET /hc` returns status 200 with body `{"status":"ok"}` exactly when
the `SELECT 1` connectivity check succeeds, and a non-200 status when it
fails; the handler keeps no internal state — its response is a pure function
of the connectivity-check outcome alone. -/
theorem c8_healthcheck :
    (∀ b : Bool,
        ((hcEndpoint b).status = 200 ∧ (hcEndpoint b).body = "\x7b\"status\":\"ok\"\x7d")
          ↔ b = true) ∧
    hcEndpoint true = { status := 200, body := "\x7b\"status\":\"ok\"\x7d" } ∧
    (hcEndpoint false).status ≠ 200 ∧
    ∀ (f g : String → Except DbError Unit), (∀ q, f q = g q) → hc f = hc g := by
  refine ⟨?_, rfl, by decide, ?_⟩
  · intro b
    cases b with
    | true => simp [hcEndpoint, hc]
    | false =>
      simp only [hcEndpoint, hc]
      constructor
      · intro h
        exact absurd h.1 (by decide)
      · intro h
        exact absurd h (by decide)
  · intro f g h
    have : f = g := funext h
    rw [this]

/-- Witness for C8: two extensionally equal connectivity checks give the same
handler result. -/
theorem c8_witness :
    hc (fun _ => Except.ok ()) = hc (fun _ => Except.ok ()) :=
  c8_healthcheck.2.2.2 (fun _ => Except.ok ()) (fun _ => Except.ok ()) fun _ => rfl

/-- C9: the database's credentials and the container's environment are drawn
from the same fields of the single `postgresql` secret — `DB_USER` is the
same secret reference as the database's username and `APP_DATABASE_PASSWORD`
the same as its password — so any resolution of secret references gives both
consumers identical values. -/
theorem c9_credential_consistency :
    envLookup "DB_USER" = some (EnvValue.fromSecret postgresqlCredentials.username) ∧
    envLookup "APP_DATABASE_PASSWORD"
      = some (EnvValue.fromSecret postgresqlCredentials.password) ∧
    ∀ (resolveSecret : SecretRef → String)
      (resolveInstance : String → String → String),
      (envLookup "DB_USER").map (resolveEnvValue resolveSecret resolveInstance)
          = some (resolveSecret postgresqlCredentials.username) ∧
      (envLookup "APP_DATABASE_PASSWORD").map (resolveEnvValue resolveSecret resolveInstance)
          = some (resolveSecret postgresqlCredentials.password) := by
  exact ⟨rfl, rfl, fun _ _ => ⟨rfl, rfl⟩⟩

/-- C10: the only ingress rule of the stack whose source is any-IPv4 is the
port-80 rule of the load-balancer group; traffic into `sg-app` is admitted
only from `sg-elb` and into `sg-rds` only from `sg-app`; no rule grants the
outside world direct reachability to the app or database groups. -/
theorem c10_world_reachability :
    (∀ r ∈ ingressRules, r.src = RuleSource.anyIpv4 →
        r.toGroup = "sg-elb" ∧ r.port = 80) ∧
    (∀ r ∈ ingressRules, r.toGroup = "sg-app" → r.src = RuleSource.group "sg-elb") ∧
    (∀ r ∈ ingressRules, r.toGroup = "sg-rds" → r.src = RuleSource.group "sg-app") ∧
    ∀ r ∈ ingressRules, r.src = RuleSource.anyIpv4 →
      r.toGroup ≠ "sg-app" ∧ r.toGroup ≠ "sg-rds" := by
  decide

/-- Witness for C10: the any-IPv4 rule of the stack targets `sg-elb` on
port 80. -/
theorem c10_witness :
    ({ src := RuleSource.anyIpv4, toGroup := "sg-elb", port := 80 } : SecurityRule).toGroup
        = "sg-elb" ∧
    ({ src := RuleSource.anyIpv4, toGroup := "sg-elb", port := 80 } : SecurityRule).port = 80 :=
  c10_world_reachability.1 _ (by decide) rfl

end EcsDeploy
